import Mathlib

/-!
Verification of the firewall-rule parser.

Shallow embedding of the `firewall-parser` repository (Rust, pest grammar):
the pest grammar from `grammar.pest` (reproduced verbatim in
`src/src/lib.rs`, module `grammar_docs`) is embedded as an executable
PEG recogniser producing a parse tree of `Pair`s, and the tree-to-AST
lowering of `src/src/lib.rs` (`parse_rules` and its helpers) is embedded
over those pairs. pest's implicit skipping of `WHITESPACE` and `COMMENT`
at every `~` and between repetitions of non-atomic rules is modelled by
the `skip` function; atomic (`@`) rules `ident`, `ip`, `port_number` do
no interior skipping.
-/

namespace Firewall

/-! ## AST data model (src/src/lib.rs, lines 11-69) -/

/-- `Action` enum: allow | deny | reject | limit. -/
inductive Action
  | Allow
  | Deny
  | Reject
  | Limit
deriving DecidableEq, Repr

/-- `Direction` enum: in | out. -/
inductive Direction
  | In
  | Out
deriving DecidableEq, Repr

/-- `Protocol` enum: tcp | udp | any. -/
inductive Protocol
  | Tcp
  | Udp
  | Any
deriving DecidableEq, Repr

/-- `Address` tagged union; `IpCidr` holds the literal matched text. -/
inductive Address
  | Any
  | Internal
  | External
  | IpCidr (text : String)
deriving DecidableEq, Repr

/-- `ServiceRule { action, service }`. -/
structure ServiceRule where
  action : Action
  service : String
deriving DecidableEq, Repr

/-- `AddressRule` with the six optional clause fields. The Rust `port`
field is `u16`; it is embedded as `Nat` (the lowering only ever stores
values `< 65536`, enforced by `parse_port`). -/
structure AddressRule where
  action : Action
  direction : Option Direction
  interface : Option String
  «from» : Option Address
  «to» : Option Address
  port : Option Nat
  proto : Option Protocol
deriving DecidableEq, Repr

/-- `FirewallRule`: tagged union of the two rule variants. -/
inductive FirewallRule
  | Service (rule : ServiceRule)
  | Address (rule : AddressRule)
deriving DecidableEq, Repr

/-- `ParseError`: `Pest` wraps a grammar-level (syntax) error — its
position/expected-set payload is abstracted away, no claim depends on
it — and `Message` carries a lowering-time (semantic) error string. -/
inductive ParseError
  | Pest
  | Message (msg : String)
deriving DecidableEq, Repr

/-! ## Parse-tree pairs

pest produces a tree of pairs, each tagged with the grammar rule that
matched, carrying the matched text and the child pairs of the non-silent
sub-rules. Silent rules (`WHITESPACE`, `NEWLINE`, `COMMENT`, `line`)
produce no pairs; string literals inside a rule produce no pairs. -/

/-- The grammar rule tags (the `Rule` enum pest derives from
grammar.pest). -/
inductive RuleTag
  | file
  | line
  | NEWLINE
  | WHITESPACE
  | COMMENT
  | service_rule
  | addr_rule
  | action
  | direction
  | ident
  | ip
  | addr
  | interface_clause
  | from_clause
  | to_clause
  | port_clause
  | proto_clause
  | port_number
  | proto
  | EOI
deriving DecidableEq, Repr

/-- The debug name of a rule tag, as Rust's `{:?}` formatting prints it
(used in the "unexpected rule" error messages). -/
def RuleTag.name : RuleTag → String
  | .file => "file"
  | .line => "line"
  | .NEWLINE => "NEWLINE"
  | .WHITESPACE => "WHITESPACE"
  | .COMMENT => "COMMENT"
  | .service_rule => "service_rule"
  | .addr_rule => "addr_rule"
  | .action => "action"
  | .direction => "direction"
  | .ident => "ident"
  | .ip => "ip"
  | .addr => "addr"
  | .interface_clause => "interface_clause"
  | .from_clause => "from_clause"
  | .to_clause => "to_clause"
  | .port_clause => "port_clause"
  | .proto_clause => "proto_clause"
  | .port_number => "port_number"
  | .proto => "proto"
  | .EOI => "EOI"

/-- A parse-tree node: rule tag, matched text (`as_str`), child pairs
(`into_inner`). -/
structure Pair where
  tag : RuleTag
  text : String
  children : List Pair

/-! ## Grammar engine (grammar.pest, via grammar_docs)

Input is a `List Char`; each rule parser returns the produced pair and
the remaining input (a suffix of its argument), or `none` on failure.
PEG semantics: ordered choice, committed once an alternative matches. -/

/-- Body of `COMMENT = _{ "#" ~ (!NEWLINE ~ ANY)* }` after the `#`:
consume characters up to (excluding) the next `NEWLINE` (`"\r\n"` or
`"\n"`); a lone `'\r'` not followed by `'\n'` is consumed as `ANY`. -/
def commentBody : List Char → List Char
  | [] => []
  | c :: rest =>
    if c = '\n' ∨ (c = '\r' ∧ rest.head? = some '\n') then c :: rest
    else commentBody rest

/-- One step of implicit skipping: `WHITESPACE = _{ " " | "\t" }` or a
whole `COMMENT`, fuelled by input length (each step consumes at least
one character and `commentBody` never grows the input). -/
def skipF : Nat → List Char → List Char
  | 0, s => s
  | fuel + 1, s =>
    match s with
    | ' ' :: rest => skipF fuel rest
    | '\t' :: rest => skipF fuel rest
    | '#' :: rest => skipF fuel (commentBody rest)
    | other => other

/-- pest's implicit `(WHITESPACE | COMMENT)*` skipping, run at every `~`
and between repetitions of non-atomic rules. -/
def skip (s : List Char) : List Char := skipF s.length s

/-- Match a literal keyword at the head of the input (pest string
literal: plain prefix match, no token boundary). -/
def litKw (kw : String) (s : List Char) : Option (List Char) :=
  if kw.toList.isPrefixOf s then some (s.drop kw.toList.length) else none

/-- Ordered-choice match of one of several literal keywords, producing a
pair with the given tag (used for `action`, `direction`, `proto` and the
keyword alternatives of `addr`). -/
def litTok (tag : RuleTag) : List String → List Char → Option (Pair × List Char)
  | [], _ => none
  | kw :: rest, s =>
    match litKw kw s with
    | some r => some ({ tag := tag, text := kw, children := [] }, r)
    | none => litTok tag rest s

/-- The text consumed between input `s` and remaining suffix `rest`. -/
def spanText (s rest : List Char) : String :=
  String.mk (s.take (s.length - rest.length))

/-- `ident = @{ (ASCII_ALPHANUMERIC | "_" | "-")+ }` character class. -/
def isIdentChar (c : Char) : Bool := c.isAlphanum || c == '_' || c == '-'

/-- `ip = @{ (ASCII_DIGIT | "." | "/")+ }` character class. -/
def isIpChar (c : Char) : Bool := c.isDigit || c == '.' || c == '/'

/-- An atomic token rule: longest nonempty run of characters satisfying
`p` (atomic rules do no interior skipping). -/
def charTok (tag : RuleTag) (p : Char → Bool) (s : List Char) :
    Option (Pair × List Char) :=
  if (s.takeWhile p).isEmpty then none
  else
    some ({ tag := tag, text := String.mk (s.takeWhile p), children := [] },
      s.drop (s.takeWhile p).length)

/-- `action = { "allow" | "deny" | "reject" | "limit" }`. -/
def pActionTok : List Char → Option (Pair × List Char) :=
  litTok .action ["allow", "deny", "reject", "limit"]

/-- `direction = { "in" | "out" }`. -/
def pDirectionTok : List Char → Option (Pair × List Char) :=
  litTok .direction ["in", "out"]

/-- `proto = { "tcp" | "udp" | "any" }`. -/
def pProtoTok : List Char → Option (Pair × List Char) :=
  litTok .proto ["tcp", "udp", "any"]

/-- `ident` token. -/
def pIdentTok : List Char → Option (Pair × List Char) :=
  charTok .ident isIdentChar

/-- `ip` token. -/
def pIpTok : List Char → Option (Pair × List Char) :=
  charTok .ip isIpChar

/-- `port_number = @{ ASCII_DIGIT+ }`. -/
def pPortNumberTok : List Char → Option (Pair × List Char) :=
  charTok .port_number Char.isDigit

/-- `addr = { "any" | "internal" | "external" | ip }`: keyword
alternatives first, then the generic `ip` class (whose pair becomes the
`addr` pair's single child). -/
def pAddr (s : List Char) : Option (Pair × List Char) :=
  match litTok .addr ["any", "internal", "external"] s with
  | some res => some res
  | none =>
    match pIpTok s with
    | some (ipPair, r) =>
      some ({ tag := .addr, text := ipPair.text, children := [ipPair] }, r)
    | none => none

/-- `interface_clause = { "on" ~ ident }`. -/
def pInterfaceClause (s : List Char) : Option (Pair × List Char) :=
  match litKw "on" s with
  | none => none
  | some r1 =>
    match pIdentTok (skip r1) with
    | none => none
    | some (i, r2) =>
      some ({ tag := .interface_clause, text := spanText s r2, children := [i] }, r2)

/-- `from_clause = { "from" ~ addr }`. -/
def pFromClause (s : List Char) : Option (Pair × List Char) :=
  match litKw "from" s with
  | none => none
  | some r1 =>
    match pAddr (skip r1) with
    | none => none
    | some (a, r2) =>
      some ({ tag := .from_clause, text := spanText s r2, children := [a] }, r2)

/-- `to_clause = { "to" ~ addr }`. -/
def pToClause (s : List Char) : Option (Pair × List Char) :=
  match litKw "to" s with
  | none => none
  | some r1 =>
    match pAddr (skip r1) with
    | none => none
    | some (a, r2) =>
      some ({ tag := .to_clause, text := spanText s r2, children := [a] }, r2)

/-- `port_clause = { "port" ~ port_number }`. -/
def pPortClause (s : List Char) : Option (Pair × List Char) :=
  match litKw "port" s with
  | none => none
  | some r1 =>
    match pPortNumberTok (skip r1) with
    | none => none
    | some (n, r2) =>
      some ({ tag := .port_clause, text := spanText s r2, children := [n] }, r2)

/-- `proto_clause = { "proto" ~ proto }`. -/
def pProtoClause (s : List Char) : Option (Pair × List Char) :=
  match litKw "proto" s with
  | none => none
  | some r1 =>
    match pProtoTok (skip r1) with
    | none => none
    | some (pr, r2) =>
      some ({ tag := .proto_clause, text := spanText s r2, children := [pr] }, r2)

/-- One alternative of `(from_clause | to_clause | port_clause |
proto_clause)`, in grammar order. -/
def pClause (s : List Char) : Option (Pair × List Char) :=
  match pFromClause s with
  | some res => some res
  | none =>
    match pToClause s with
    | some res => some res
    | none =>
      match pPortClause s with
      | some res => some res
      | none => pProtoClause s

/-- Repetition tail of the clause group (`+` after the first mandatory
clause): skip, try another clause; a failed attempt is backtracked
(the skip before it is not kept). Fuelled by input length. -/
def pClausesAux : Nat → List Char → List Pair → List Pair × List Char
  | 0, s, acc => (acc, s)
  | fuel + 1, s, acc =>
    match pClause (skip s) with
    | some (p, r) => pClausesAux fuel r (acc ++ [p])
    | none => (acc, s)

/-- Assemble the `addr_rule` pair from the pieces: the action pair, the
optional direction and interface pairs, and the result of the clause
repetition. -/
def mkAddrPair (s : List Char) (a : Pair) (dirPairs ifacePairs : List Pair)
    (res : List Pair × List Char) : Pair × List Char :=
  ({ tag := .addr_rule, text := spanText s res.2,
     children := a :: dirPairs ++ ifacePairs ++ res.1 }, res.2)

/-- The mandatory clause group of `addr_rule`: skip, one clause, then
the repetition tail. -/
def pAddrRuleClauses (s : List Char) (a : Pair) (dirPairs ifacePairs : List Pair)
    (r5 : List Char) : Option (Pair × List Char) :=
  match pClause (skip r5) with
  | none => none
  | some (c1, r7) =>
    some (mkAddrPair s a dirPairs ifacePairs (pClausesAux r7.length r7 [c1]))

/-- The `interface_clause?` optional of `addr_rule` (committed once
matched, as PEG `?` is). -/
def pAddrRuleIface (s : List Char) (a : Pair) (dirPairs : List Pair)
    (r3 : List Char) : Option (Pair × List Char) :=
  match pInterfaceClause (skip r3) with
  | some (i, r5) => pAddrRuleClauses s a dirPairs [i] r5
  | none => pAddrRuleClauses s a dirPairs [] (skip r3)

/-- The `direction?` optional of `addr_rule`. -/
def pAddrRuleDir (s : List Char) (a : Pair) (r1 : List Char) :
    Option (Pair × List Char) :=
  match pDirectionTok (skip r1) with
  | some (d, r3) => pAddrRuleIface s a [d] r3
  | none => pAddrRuleIface s a [] (skip r1)

/-- `addr_rule = { action ~ direction? ~ interface_clause? ~
(from_clause | to_clause | port_clause | proto_clause)+ }`. Optionals
are committed once matched (PEG); at least one clause is required. -/
def pAddrRule (s : List Char) : Option (Pair × List Char) :=
  match pActionTok s with
  | none => none
  | some (a, r1) => pAddrRuleDir s a r1

/-- `service_rule = { action ~ ident }`. -/
def pServiceRule (s : List Char) : Option (Pair × List Char) :=
  match pActionTok s with
  | none => none
  | some (a, r1) =>
    match pIdentTok (skip r1) with
    | none => none
    | some (i, r2) =>
      some ({ tag := .service_rule, text := spanText s r2, children := [a, i] }, r2)

/-- `line = _{ (addr_rule | service_rule) ~ COMMENT? | COMMENT }`:
silent, so it yields the child pairs directly. The `~ COMMENT?` after a
rule coincides with implicit skipping, modelled by `skip`. -/
def pLine (s : List Char) : Option (List Pair × List Char) :=
  match pAddrRule s with
  | some (p, r) => some ([p], skip r)
  | none =>
    match pServiceRule s with
    | some (p, r) => some ([p], skip r)
    | none =>
      match s with
      | '#' :: rest => some ([], commentBody rest)
      | _ => none

/-- `NEWLINE = _{ "\r\n" | "\n" }` (silent). -/
def pNewline : List Char → Option (List Char)
  | '\r' :: '\n' :: rest => some rest
  | '\n' :: rest => some rest
  | _ => none

/-- End of the `file` rule after the line repetition stops: implicit
skip, then `EOI` must be reached; on success the `EOI` pair is appended
(pest emits a pair for `EOI`). -/
def pFileEnd (s : List Char) (acc : List Pair) : Option (List Pair) :=
  if (skip s).isEmpty then
    some (acc ++ [{ tag := .EOI, text := "", children := [] }])
  else none

/-- The `(line? ~ NEWLINE)*` repetition of `file`, with implicit
skipping between repetitions and at each `~`; a repetition whose
`NEWLINE` fails is backtracked whole. Each successful repetition
consumes the newline, so input length bounds the fuel. -/
def pFileAux : Nat → List Char → List Pair → Option (List Pair)
  | 0, s, acc => pFileEnd s acc
  | fuel + 1, s, acc =>
    match pLine (skip s) with
    | some (ps, r2) =>
      match pNewline (skip r2) with
      | some r4 => pFileAux fuel r4 (acc ++ ps)
      | none => pFileEnd s acc
    | none =>
      match pNewline (skip (skip s)) with
      | some r4 => pFileAux fuel r4 acc
      | none => pFileEnd s acc

/-- `file = { SOI ~ (line? ~ NEWLINE)* ~ EOI }`: the whole-input parse
(`FirewallGrammar::parse(Rule::file, input)`), producing the `file`
pair whose children are the rule pairs and the `EOI` pair. -/
def pFile (input : List Char) : Option Pair :=
  match pFileAux (input.length + 1) input [] with
  | some children => some { tag := .file, text := String.mk input, children := children }
  | none => none

/-! ## AST lowering (src/src/lib.rs, lines 88-237) -/

/-- `parse_action` (lib.rs 197-205): ordered equality tests, as Rust's
`match` on `&str`. -/
def parse_action (text : String) : Except ParseError Action :=
  if text = "allow" then .ok .Allow
  else if text = "deny" then .ok .Deny
  else if text = "reject" then .ok .Reject
  else if text = "limit" then .ok .Limit
  else .error (.Message ("invalid action: " ++ text))

/-- `parse_direction` (lib.rs 207-213). -/
def parse_direction (text : String) : Except ParseError Direction :=
  if text = "in" then .ok .In
  else if text = "out" then .ok .Out
  else .error (.Message ("invalid direction: " ++ text))

/-- `parse_protocol` (lib.rs 215-222). -/
def parse_protocol (text : String) : Except ParseError Protocol :=
  if text = "tcp" then .ok .Tcp
  else if text = "udp" then .ok .Udp
  else if text = "any" then .ok .Any
  else .error (.Message ("invalid protocol: " ++ text))

/-- `parse_address` (lib.rs 224-232): keyword texts map to the keyword
variants, anything else is wrapped literally as `IpCidr`. -/
def parse_address (p : Pair) : Except ParseError Address :=
  if p.text = "any" then .ok .Any
  else if p.text = "internal" then .ok .Internal
  else if p.text = "external" then .ok .External
  else .ok (.IpCidr p.text)

/-- Decimal value of a digit run (the accumulator loop inside Rust's
`str::parse::<u16>`). -/
def natOfDigits (cs : List Char) : Nat :=
  cs.foldl (fun acc c => acc * 10 + (c.toNat - '0'.toNat)) 0

/-- One-or-more digits with 16-bit range check (the digit branch of
Rust's `str::parse::<u16>`). -/
def parseDigits (cs : List Char) : Option Nat :=
  if cs.isEmpty || !cs.all Char.isDigit then none
  else if natOfDigits cs < 65536 then some (natOfDigits cs) else none

/-- Rust `str::parse::<u16>` on the clause text: optional leading `+`,
then one or more ASCII digits, value within `0..=65535`; anything else
(empty, stray characters, overflow) is a parse failure. -/
def parseU16 (text : String) : Option Nat :=
  match text.toList with
  | '+' :: rest => parseDigits rest
  | other => parseDigits other

/-- `parse_port` (lib.rs 234-237). -/
def parse_port (text : String) : Except ParseError Nat :=
  match parseU16 text with
  | some n => .ok n
  | none => .error (.Message ("invalid port value: " ++ text))

/-- `parse_service_rule` (lib.rs 115-128): takes the first two child
pairs as action and identifier. -/
def parse_service_rule (p : Pair) : Except ParseError ServiceRule :=
  match p.children with
  | [] => .error (.Message "service rule missing action")
  | [_] => .error (.Message "service rule missing identifier")
  | a :: i :: _ => do
    let action ← parse_action a.text
    .ok { action := action, service := i.text }

/-- One arm of the clause loop of `parse_address_rule` (lib.rs
147-191): dispatch on the child pair's tag and assign the matching
optional field of the rule under construction. -/
def applyClause (rule : AddressRule) (p : Pair) : Except ParseError AddressRule :=
  match p.tag with
  | .direction => do
    let d ← parse_direction p.text
    .ok { rule with direction := some d }
  | .interface_clause =>
    match p.children with
    | [] => .error (.Message "interface clause missing identifier")
    | i :: _ => .ok { rule with interface := some i.text }
  | .from_clause =>
    match p.children with
    | [] => .error (.Message "from clause missing address")
    | a :: _ => do
      let addr ← parse_address a
      .ok { rule with «from» := some addr }
  | .to_clause =>
    match p.children with
    | [] => .error (.Message "to clause missing address")
    | a :: _ => do
      let addr ← parse_address a
      .ok { rule with «to» := some addr }
  | .port_clause =>
    match p.children with
    | [] => .error (.Message "port clause missing number")
    | n :: _ => do
      let port ← parse_port n.text
      .ok { rule with port := some port }
  | .proto_clause =>
    match p.children with
    | [] => .error (.Message "proto clause missing proto")
    | pr :: _ => do
      let proto ← parse_protocol pr.text
      .ok { rule with proto := some proto }
  | other =>
    .error (.Message ("unexpected rule inside addr_rule: " ++ other.name))

/-- The clause loop of `parse_address_rule` (lib.rs 147-192): iterate
the remaining child pairs in order, assigning into the matching
optional field (later assignments overwrite earlier ones); the first
failure aborts. -/
def lowerClauses : List Pair → AddressRule → Except ParseError AddressRule
  | [], rule => .ok rule
  | p :: rest, rule =>
    match applyClause rule p with
    | .ok next => lowerClauses rest next
    | .error e => .error e

/-- `parse_address_rule` (lib.rs 130-195): first child is the action,
the rest are lowered by the clause loop starting from the all-`None`
record. -/
def parse_address_rule (p : Pair) : Except ParseError AddressRule :=
  match p.children with
  | [] => .error (.Message "address rule missing action")
  | a :: rest => do
    let action ← parse_action a.text
    lowerClauses rest
      { action := action, direction := none, interface := none,
        «from» := none, «to» := none, port := none, proto := none }

/-- One iteration of the `parse_rules` loop (lib.rs 95-110): a rule pair
lowers to `some` rule, the skipped tags to `none`, anything else is an
error. -/
def lowerTopPair (p : Pair) : Except ParseError (Option FirewallRule) :=
  match p.tag with
  | .service_rule => do
    let s ← parse_service_rule p
    .ok (some (.Service s))
  | .addr_rule => do
    let a ← parse_address_rule p
    .ok (some (.Address a))
  | .line | .NEWLINE | .COMMENT | .EOI => .ok none
  | other => .error (.Message ("unexpected rule inside file: " ++ other.name))

/-- The accumulation loop of `parse_rules` over the file pair's
children: first error aborts, produced rules keep input order. -/
def lowerFile : List Pair → Except ParseError (List FirewallRule)
  | [] => .ok []
  | p :: rest => do
    let headRule ← lowerTopPair p
    let tailRules ← lowerFile rest
    match headRule with
    | some r => .ok (r :: tailRules)
    | none => .ok tailRules

/-- `parse_rules` (lib.rs 88-113): run the grammar on the whole input
(a grammar failure becomes the `Pest` error), then lower the file
pair's children. -/
def parse_rules (input : String) : Except ParseError (List FirewallRule) :=
  match pFile input.toList with
  | none => .error .Pest
  | some filePair => lowerFile filePair.children

/-! ## Consumption lemmas

Every rule parser returns a suffix of its input; these lemmas let us
reason about what the `file` loop can still see. -/

theorem commentBody_suffix : ∀ s : List Char, commentBody s <:+ s := by
  intro s
  induction s with
  | nil => exact List.suffix_refl _
  | cons c rest ih =>
    show commentBody (c :: rest) <:+ c :: rest
    rw [commentBody]
    split
    · exact List.suffix_refl _
    · exact ih.trans (List.suffix_cons c rest)

theorem skipF_suffix : ∀ (fuel : Nat) (s : List Char), skipF fuel s <:+ s := by
  intro fuel
  induction fuel with
  | zero => intro s; exact List.suffix_refl _
  | succ n ih =>
    intro s
    unfold skipF
    split
    · exact (ih _).trans (List.suffix_cons _ _)
    · exact (ih _).trans (List.suffix_cons _ _)
    · exact ((ih _).trans (commentBody_suffix _)).trans (List.suffix_cons _ _)
    · exact List.suffix_refl _

theorem skip_suffix (s : List Char) : skip s <:+ s := skipF_suffix s.length s

theorem litKw_suffix {kw : String} {s r : List Char} (h : litKw kw s = some r) :
    r <:+ s := by
  unfold litKw at h
  split at h
  · exact (Option.some.injEq _ _ ▸ h) ▸ List.drop_suffix _ _
  · exact absurd h (by simp)

theorem litTok_suffix {tag : RuleTag} {kws : List String} {s r : List Char} {p : Pair}
    (h : litTok tag kws s = some (p, r)) : r <:+ s := by
  induction kws with
  | nil => simp [litTok] at h
  | cons kw rest ih =>
    unfold litTok at h
    split at h
    · rename_i r1 heq
      simp only [Option.some.injEq, Prod.mk.injEq] at h
      obtain ⟨-, rfl⟩ := h
      exact litKw_suffix heq
    · exact ih h

theorem charTok_suffix {tag : RuleTag} {q : Char → Bool} {s r : List Char} {p : Pair}
    (h : charTok tag q s = some (p, r)) : r <:+ s := by
  unfold charTok at h
  split at h
  · exact absurd h (by simp)
  · simp only [Option.some.injEq, Prod.mk.injEq] at h
    obtain ⟨-, rfl⟩ := h
    exact List.drop_suffix _ _

theorem pAddr_suffix {s r : List Char} {p : Pair} (h : pAddr s = some (p, r)) :
    r <:+ s := by
  unfold pAddr at h
  split at h
  · rename_i res heq
    injection h with h1
    subst h1
    exact litTok_suffix heq
  · split at h
    · rename_i ipPair r2 heq
      simp only [Option.some.injEq, Prod.mk.injEq] at h
      obtain ⟨-, rfl⟩ := h
      exact charTok_suffix heq
    · exact absurd h (by simp)

theorem pInterfaceClause_suffix {s r : List Char} {p : Pair}
    (h : pInterfaceClause s = some (p, r)) : r <:+ s := by
  unfold pInterfaceClause at h
  split at h
  · exact absurd h (by simp)
  · rename_i r1 heq1
    split at h
    · exact absurd h (by simp)
    · rename_i i r2 heq2
      simp only [Option.some.injEq, Prod.mk.injEq] at h
      obtain ⟨-, rfl⟩ := h
      exact ((charTok_suffix heq2).trans (skip_suffix r1)).trans (litKw_suffix heq1)

theorem pFromClause_suffix {s r : List Char} {p : Pair}
    (h : pFromClause s = some (p, r)) : r <:+ s := by
  unfold pFromClause at h
  split at h
  · exact absurd h (by simp)
  · rename_i r1 heq1
    split at h
    · exact absurd h (by simp)
    · rename_i a r2 heq2
      simp only [Option.some.injEq, Prod.mk.injEq] at h
      obtain ⟨-, rfl⟩ := h
      exact ((pAddr_suffix heq2).trans (skip_suffix r1)).trans (litKw_suffix heq1)

theorem pToClause_suffix {s r : List Char} {p : Pair}
    (h : pToClause s = some (p, r)) : r <:+ s := by
  unfold pToClause at h
  split at h
  · exact absurd h (by simp)
  · rename_i r1 heq1
    split at h
    · exact absurd h (by simp)
    · rename_i a r2 heq2
      simp only [Option.some.injEq, Prod.mk.injEq] at h
      obtain ⟨-, rfl⟩ := h
      exact ((pAddr_suffix heq2).trans (skip_suffix r1)).trans (litKw_suffix heq1)

theorem pPortClause_suffix {s r : List Char} {p : Pair}
    (h : pPortClause s = some (p, r)) : r <:+ s := by
  unfold pPortClause at h
  split at h
  · exact absurd h (by simp)
  · rename_i r1 heq1
    split at h
    · exact absurd h (by simp)
    · rename_i n r2 heq2
      simp only [Option.some.injEq, Prod.mk.injEq] at h
      obtain ⟨-, rfl⟩ := h
      exact ((charTok_suffix heq2).trans (skip_suffix r1)).trans (litKw_suffix heq1)

theorem pProtoClause_suffix {s r : List Char} {p : Pair}
    (h : pProtoClause s = some (p, r)) : r <:+ s := by
  unfold pProtoClause at h
  split at h
  · exact absurd h (by simp)
  · rename_i r1 heq1
    split at h
    · exact absurd h (by simp)
    · rename_i pr r2 heq2
      simp only [Option.some.injEq, Prod.mk.injEq] at h
      obtain ⟨-, rfl⟩ := h
      exact ((litTok_suffix heq2).trans (skip_suffix r1)).trans (litKw_suffix heq1)

theorem pClause_suffix {s r : List Char} {p : Pair}
    (h : pClause s = some (p, r)) : r <:+ s := by
  unfold pClause at h
  split at h
  · rename_i res heq
    injection h with h1
    subst h1
    exact pFromClause_suffix heq
  · split at h
    · rename_i res heq
      injection h with h1
      subst h1
      exact pToClause_suffix heq
    · split at h
      · rename_i res heq
        injection h with h1
        subst h1
        exact pPortClause_suffix heq
      · exact pProtoClause_suffix h

theorem pClausesAux_suffix :
    ∀ (fuel : Nat) (s : List Char) (acc : List Pair),
      (pClausesAux fuel s acc).2 <:+ s := by
  intro fuel
  induction fuel with
  | zero => intro s acc; exact List.suffix_refl _
  | succ n ih =>
    intro s acc
    unfold pClausesAux
    split
    · rename_i p r heq
      exact (ih r _).trans ((pClause_suffix heq).trans (skip_suffix s))
    · exact List.suffix_refl _

theorem pAddrRuleClauses_suffix {s r5 r : List Char} {a p : Pair}
    {dirPairs ifacePairs : List Pair}
    (h : pAddrRuleClauses s a dirPairs ifacePairs r5 = some (p, r)) : r <:+ r5 := by
  unfold pAddrRuleClauses at h
  split at h
  · exact absurd h (by simp)
  · rename_i c1 r7 heq
    simp only [mkAddrPair, Option.some.injEq, Prod.mk.injEq] at h
    obtain ⟨-, rfl⟩ := h
    exact (pClausesAux_suffix _ _ _).trans ((pClause_suffix heq).trans (skip_suffix r5))

theorem pAddrRuleIface_suffix {s r3 r : List Char} {a p : Pair}
    {dirPairs : List Pair}
    (h : pAddrRuleIface s a dirPairs r3 = some (p, r)) : r <:+ r3 := by
  unfold pAddrRuleIface at h
  split at h
  · rename_i i r5 heq
    exact (pAddrRuleClauses_suffix h).trans
      ((pInterfaceClause_suffix heq).trans (skip_suffix r3))
  · exact (pAddrRuleClauses_suffix h).trans (skip_suffix r3)

theorem pAddrRuleDir_suffix {s r1 r : List Char} {a p : Pair}
    (h : pAddrRuleDir s a r1 = some (p, r)) : r <:+ r1 := by
  unfold pAddrRuleDir at h
  split at h
  · rename_i d r3 heq
    exact (pAddrRuleIface_suffix h).trans ((litTok_suffix heq).trans (skip_suffix r1))
  · exact (pAddrRuleIface_suffix h).trans (skip_suffix r1)

theorem pAddrRule_suffix {s r : List Char} {p : Pair}
    (h : pAddrRule s = some (p, r)) : r <:+ s := by
  unfold pAddrRule at h
  split at h
  · exact absurd h (by simp)
  · rename_i a r1 heq
    exact (pAddrRuleDir_suffix h).trans (litTok_suffix heq)

theorem pServiceRule_suffix {s r : List Char} {p : Pair}
    (h : pServiceRule s = some (p, r)) : r <:+ s := by
  unfold pServiceRule at h
  split at h
  · exact absurd h (by simp)
  · rename_i a r1 heq1
    split at h
    · exact absurd h (by simp)
    · rename_i i r2 heq2
      simp only [Option.some.injEq, Prod.mk.injEq] at h
      obtain ⟨-, rfl⟩ := h
      exact ((charTok_suffix heq2).trans (skip_suffix r1)).trans (litTok_suffix heq1)

theorem pLine_suffix {s r : List Char} {ps : List Pair}
    (h : pLine s = some (ps, r)) : r <:+ s := by
  unfold pLine at h
  split at h
  · rename_i p r1 heq
    simp only [Option.some.injEq, Prod.mk.injEq] at h
    obtain ⟨-, rfl⟩ := h
    exact (skip_suffix r1).trans (pAddrRule_suffix heq)
  · split at h
    · rename_i p r1 heq
      simp only [Option.some.injEq, Prod.mk.injEq] at h
      obtain ⟨-, rfl⟩ := h
      exact (skip_suffix r1).trans (pServiceRule_suffix heq)
    · split at h
      · simp only [Option.some.injEq, Prod.mk.injEq] at h
        obtain ⟨-, rfl⟩ := h
        exact (commentBody_suffix _).trans (List.suffix_cons _ _)
      · exact absurd h (by simp)

theorem pNewline_eq_none {s : List Char} (h : '\n' ∉ s) : pNewline s = none := by
  unfold pNewline
  split
  · rename_i rest; exact absurd (by simp) h
  · rename_i rest; exact absurd (by simp) h
  · rfl

/-- On an input without `'\n'`, the `(line? ~ NEWLINE)*` repetition of
`file` makes no iteration: whatever a line consumes, the mandatory
`NEWLINE` fails, the iteration backtracks, and the parse proceeds
straight to the end-of-input check. -/
theorem pFileAux_no_newline {s : List Char} (h : '\n' ∉ s) (fuel : Nat)
    (acc : List Pair) : pFileAux (fuel + 1) s acc = pFileEnd s acc := by
  unfold pFileAux
  split
  · rename_i ps r2 heq
    have hr : skip r2 <:+ s :=
      (skip_suffix r2).trans ((pLine_suffix heq).trans (skip_suffix s))
    rw [pNewline_eq_none (fun hm => h (hr.mem hm))]
  · have hr : skip (skip s) <:+ s := (skip_suffix _).trans (skip_suffix s)
    rw [pNewline_eq_none (fun hm => h (hr.mem hm))]

/-- A document with no newline at all parses iff skipping whitespace
and comments exhausts it: then it yields zero rules, otherwise the
grammar rejects it. -/
theorem parse_rules_no_newline (input : String) (h : '\n' ∉ input.toList) :
    ((skip input.toList).isEmpty = true → parse_rules input = .ok []) ∧
    ((skip input.toList).isEmpty = false → parse_rules input = .error .Pest) := by
  have hfa : pFileAux (input.toList.length + 1) input.toList [] =
      pFileEnd input.toList [] := pFileAux_no_newline h _ _
  constructor
  · intro hemp
    simp only [parse_rules, pFile, hfa, pFileEnd, hemp, if_true]
    rfl
  · intro hemp
    simp only [parse_rules, pFile, hfa, pFileEnd, hemp]
    rfl

/-! ## Shape lemmas: what the grammar guarantees about `addr_rule` pairs -/

/-- The four clause alternatives of the mandatory clause group. -/
def isClauseTag : RuleTag → Bool
  | .from_clause | .to_clause | .port_clause | .proto_clause => true
  | _ => false

theorem pFromClause_tag {s r : List Char} {p : Pair}
    (h : pFromClause s = some (p, r)) : p.tag = .from_clause := by
  unfold pFromClause at h
  split at h
  · exact absurd h (by simp)
  · split at h
    · exact absurd h (by simp)
    · simp only [Option.some.injEq, Prod.mk.injEq] at h
      obtain ⟨rfl, -⟩ := h
      rfl

theorem pToClause_tag {s r : List Char} {p : Pair}
    (h : pToClause s = some (p, r)) : p.tag = .to_clause := by
  unfold pToClause at h
  split at h
  · exact absurd h (by simp)
  · split at h
    · exact absurd h (by simp)
    · simp only [Option.some.injEq, Prod.mk.injEq] at h
      obtain ⟨rfl, -⟩ := h
      rfl

theorem pPortClause_tag {s r : List Char} {p : Pair}
    (h : pPortClause s = some (p, r)) : p.tag = .port_clause := by
  unfold pPortClause at h
  split at h
  · exact absurd h (by simp)
  · split at h
    · exact absurd h (by simp)
    · simp only [Option.some.injEq, Prod.mk.injEq] at h
      obtain ⟨rfl, -⟩ := h
      rfl

theorem pProtoClause_tag {s r : List Char} {p : Pair}
    (h : pProtoClause s = some (p, r)) : p.tag = .proto_clause := by
  unfold pProtoClause at h
  split at h
  · exact absurd h (by simp)
  · split at h
    · exact absurd h (by simp)
    · simp only [Option.some.injEq, Prod.mk.injEq] at h
      obtain ⟨rfl, -⟩ := h
      rfl

theorem pClause_tag {s r : List Char} {p : Pair}
    (h : pClause s = some (p, r)) : isClauseTag p.tag = true := by
  unfold pClause at h
  split at h
  · rename_i res heq
    injection h with h1
    subst h1
    rw [pFromClause_tag heq]
    rfl
  · split at h
    · rename_i res heq
      injection h with h1
      subst h1
      rw [pToClause_tag heq]
      rfl
    · split at h
      · rename_i res heq
        injection h with h1
        subst h1
        rw [pPortClause_tag heq]
        rfl
      · rw [pProtoClause_tag h]
        rfl

theorem pClausesAux_acc_initial :
    ∀ (fuel : Nat) (s : List Char) (acc : List Pair),
      ∃ t, (pClausesAux fuel s acc).1 = acc ++ t := by
  intro fuel
  induction fuel with
  | zero => intro s acc; exact ⟨[], by simp [pClausesAux]⟩
  | succ n ih =>
    intro s acc
    unfold pClausesAux
    split
    · rename_i p r heq
      obtain ⟨t, ht⟩ := ih r (acc ++ [p])
      exact ⟨[p] ++ t, by rw [ht]; simp⟩
    · exact ⟨[], by simp⟩

/-- The shape the grammar forces on every `addr_rule` pair: an action
child followed by further children among which a clause occurs. -/
def goodAddrPair (p : Pair) : Prop :=
  ∃ a rest, p.children = a :: rest ∧ ∃ c ∈ rest, isClauseTag c.tag = true

theorem pAddrRuleClauses_good {s r5 r : List Char} {a p : Pair}
    {dirPairs ifacePairs : List Pair}
    (h : pAddrRuleClauses s a dirPairs ifacePairs r5 = some (p, r)) :
    p.tag = .addr_rule ∧ goodAddrPair p := by
  unfold pAddrRuleClauses at h
  split at h
  · exact absurd h (by simp)
  · rename_i c1 r7 heq
    simp only [mkAddrPair, Option.some.injEq, Prod.mk.injEq] at h
    obtain ⟨rfl, -⟩ := h
    refine ⟨rfl, a, _, rfl, c1, ?_, pClause_tag heq⟩
    obtain ⟨t, ht⟩ := pClausesAux_acc_initial r7.length r7 [c1]
    rw [ht]
    simp

theorem pAddrRuleIface_good {s r3 r : List Char} {a p : Pair}
    {dirPairs : List Pair}
    (h : pAddrRuleIface s a dirPairs r3 = some (p, r)) :
    p.tag = .addr_rule ∧ goodAddrPair p := by
  unfold pAddrRuleIface at h
  split at h
  · exact pAddrRuleClauses_good h
  · exact pAddrRuleClauses_good h

theorem pAddrRuleDir_good {s r1 r : List Char} {a p : Pair}
    (h : pAddrRuleDir s a r1 = some (p, r)) :
    p.tag = .addr_rule ∧ goodAddrPair p := by
  unfold pAddrRuleDir at h
  split at h
  · exact pAddrRuleIface_good h
  · exact pAddrRuleIface_good h

theorem pAddrRule_good {s r : List Char} {p : Pair}
    (h : pAddrRule s = some (p, r)) : p.tag = .addr_rule ∧ goodAddrPair p := by
  unfold pAddrRule at h
  split at h
  · exact absurd h (by simp)
  · exact pAddrRuleDir_good h

theorem pServiceRule_tag {s r : List Char} {p : Pair}
    (h : pServiceRule s = some (p, r)) : p.tag = .service_rule := by
  unfold pServiceRule at h
  split at h
  · exact absurd h (by simp)
  · split at h
    · exact absurd h (by simp)
    · simp only [Option.some.injEq, Prod.mk.injEq] at h
      obtain ⟨rfl, -⟩ := h
      rfl

/-- Every pair the `file` rule can hand to the lowering loop. -/
def GoodTopPair (p : Pair) : Prop :=
  p.tag = .EOI ∨ p.tag = .service_rule ∨ (p.tag = .addr_rule ∧ goodAddrPair p)

theorem pLine_sound {s r : List Char} {ps : List Pair}
    (h : pLine s = some (ps, r)) : ∀ p ∈ ps, GoodTopPair p := by
  unfold pLine at h
  split at h
  · rename_i p' r1 heq
    simp only [Option.some.injEq, Prod.mk.injEq] at h
    obtain ⟨rfl, -⟩ := h
    intro p hp
    obtain rfl : p = p' := by simpa using hp
    exact .inr (.inr (pAddrRule_good heq))
  · split at h
    · rename_i p' r1 heq
      simp only [Option.some.injEq, Prod.mk.injEq] at h
      obtain ⟨rfl, -⟩ := h
      intro p hp
      obtain rfl : p = p' := by simpa using hp
      exact .inr (.inl (pServiceRule_tag heq))
    · split at h
      · simp only [Option.some.injEq, Prod.mk.injEq] at h
        obtain ⟨rfl, -⟩ := h
        intro p hp
        exact absurd hp (by simp)
      · exact absurd h (by simp)

theorem pFileEnd_sound {s : List Char} {acc out : List Pair}
    (h : pFileEnd s acc = some out) :
    ∀ p ∈ out, p ∈ acc ∨ GoodTopPair p := by
  unfold pFileEnd at h
  split at h
  · obtain rfl : acc ++ [{ tag := RuleTag.EOI, text := "", children := [] }] = out := by
      simpa using h
    intro p hp
    rcases List.mem_append.mp hp with hl | hr
    · exact .inl hl
    · obtain rfl : p = { tag := RuleTag.EOI, text := "", children := [] } := by
        simpa using hr
      exact .inr (.inl rfl)
  · exact absurd h (by simp)

theorem pFileAux_sound :
    ∀ (fuel : Nat) (s : List Char) (acc out : List Pair),
      pFileAux fuel s acc = some out → ∀ p ∈ out, p ∈ acc ∨ GoodTopPair p := by
  intro fuel
  induction fuel with
  | zero => intro s acc out h; exact pFileEnd_sound h
  | succ n ih =>
    intro s acc out h
    unfold pFileAux at h
    split at h
    · rename_i ps r2 heqLine
      split at h
      · rename_i r4 heqNl
        intro p hp
        rcases ih r4 (acc ++ ps) out h p hp with hmem | hgood
        · rcases List.mem_append.mp hmem with hl | hr
          · exact .inl hl
          · exact .inr (pLine_sound heqLine p hr)
        · exact .inr hgood
      · exact pFileEnd_sound h
    · split at h
      · rename_i r4 heqNl
        exact ih r4 acc out h
      · exact pFileEnd_sound h

theorem pFile_sound {input : List Char} {filePair : Pair}
    (h : pFile input = some filePair) : ∀ p ∈ filePair.children, GoodTopPair p := by
  unfold pFile at h
  split at h
  · rename_i children heq
    obtain rfl :
        ({ tag := RuleTag.file, text := String.mk input, children := children } : Pair) =
          filePair := by simpa using h
    intro p hp
    rcases pFileAux_sound _ input [] children heq p hp with hmem | hgood
    · exact absurd hmem (by simp)
    · exact hgood
  · exact absurd h (by simp)

/-! ## Lowering lemmas -/

/-- At least one of the four clause fields of an `AddressRule` is set. -/
def hasClauseField (r : AddressRule) : Prop :=
  r.«from».isSome = true ∨ r.«to».isSome = true ∨
    r.port.isSome = true ∨ r.proto.isSome = true

theorem applyClause_hasClause {r r' : AddressRule} {p : Pair}
    (h : applyClause r p = .ok r')
    (hd : hasClauseField r ∨ isClauseTag p.tag = true) : hasClauseField r' := by
  unfold applyClause at h
  split at h
  · -- direction arm
    cases hdir : parse_direction p.text with
    | error e => rw [hdir] at h; exact absurd h (by simp [Bind.bind, Except.bind])
    | ok d =>
      rw [hdir] at h
      simp only [Bind.bind, Except.bind, Except.ok.injEq] at h
      subst h
      rcases hd with hc | ht
      · simpa [hasClauseField] using hc
      · simp_all [isClauseTag]
  · -- interface arm
    split at h
    · exact absurd h (by simp)
    · simp only [Except.ok.injEq] at h
      subst h
      rcases hd with hc | ht
      · simpa [hasClauseField] using hc
      · simp_all [isClauseTag]
  · -- from arm
    split at h
    · exact absurd h (by simp)
    · cases haddr : parse_address _ with
      | error e => rw [haddr] at h; exact absurd h (by simp [Bind.bind, Except.bind])
      | ok addr =>
        rw [haddr] at h
        simp only [Bind.bind, Except.bind, Except.ok.injEq] at h
        subst h
        simp [hasClauseField]
  · -- to arm
    split at h
    · exact absurd h (by simp)
    · cases haddr : parse_address _ with
      | error e => rw [haddr] at h; exact absurd h (by simp [Bind.bind, Except.bind])
      | ok addr =>
        rw [haddr] at h
        simp only [Bind.bind, Except.bind, Except.ok.injEq] at h
        subst h
        simp [hasClauseField]
  · -- port arm
    split at h
    · exact absurd h (by simp)
    · cases hport : parse_port _ with
      | error e => rw [hport] at h; exact absurd h (by simp [Bind.bind, Except.bind])
      | ok n =>
        rw [hport] at h
        simp only [Bind.bind, Except.bind, Except.ok.injEq] at h
        subst h
        simp [hasClauseField]
  · -- proto arm
    split at h
    · exact absurd h (by simp)
    · cases hproto : parse_protocol _ with
      | error e => rw [hproto] at h; exact absurd h (by simp [Bind.bind, Except.bind])
      | ok pr =>
        rw [hproto] at h
        simp only [Bind.bind, Except.bind, Except.ok.injEq] at h
        subst h
        simp [hasClauseField]
  · -- unexpected tag arm
    exact absurd h (by simp)

theorem lowerClauses_hasClause :
    ∀ (cs : List Pair) (r0 r : AddressRule), lowerClauses cs r0 = .ok r →
      (hasClauseField r0 ∨ ∃ c ∈ cs, isClauseTag c.tag = true) → hasClauseField r := by
  intro cs
  induction cs with
  | nil =>
    intro r0 r h hd
    obtain rfl : r0 = r := by simpa [lowerClauses] using h
    rcases hd with hc | ⟨c, hm, -⟩
    · exact hc
    · exact absurd hm (by simp)
  | cons p rest ih =>
    intro r0 r h hd
    unfold lowerClauses at h
    split at h
    · rename_i next heq
      refine ih next r h ?_
      rcases hd with hc | ⟨c, hm, ht⟩
      · exact .inl (applyClause_hasClause heq (.inl hc))
      · rcases List.mem_cons.mp hm with rfl | hrest
        · exact .inl (applyClause_hasClause heq (.inr ht))
        · exact .inr ⟨c, hrest, ht⟩
    · exact absurd h (by simp)

theorem parse_address_rule_hasClause {p : Pair} {ar : AddressRule}
    (hg : goodAddrPair p) (h : parse_address_rule p = .ok ar) :
    hasClauseField ar := by
  obtain ⟨a, rest, hch, c, hm, htag⟩ := hg
  obtain ⟨ptag, ptext, pch⟩ := p
  obtain rfl : pch = a :: rest := by simpa using hch
  unfold parse_address_rule at h
  simp only at h
  cases ha : parse_action a.text with
  | error e => rw [ha] at h; exact absurd h (by simp [Bind.bind, Except.bind])
  | ok act =>
    rw [ha] at h
    simp only [Bind.bind, Except.bind] at h
    exact lowerClauses_hasClause rest _ ar h (.inr ⟨c, hm, htag⟩)

theorem lowerFile_addr_source :
    ∀ (ps : List Pair) (rules : List FirewallRule), lowerFile ps = .ok rules →
      ∀ ar : AddressRule, FirewallRule.Address ar ∈ rules →
        ∃ p ∈ ps, p.tag = .addr_rule ∧ parse_address_rule p = .ok ar := by
  intro ps
  induction ps with
  | nil =>
    intro rules h ar hm
    obtain rfl : rules = [] := by simpa [lowerFile] using h.symm
    exact absurd hm (by simp)
  | cons p rest ih =>
    intro rules h ar hm
    unfold lowerFile at h
    cases h1 : lowerTopPair p with
    | error e => rw [h1] at h; exact absurd h (by simp [Bind.bind, Except.bind])
    | ok headRule =>
      rw [h1] at h
      cases h2 : lowerFile rest with
      | error e => rw [h2] at h; exact absurd h (by simp [Bind.bind, Except.bind])
      | ok tl =>
        rw [h2] at h
        simp only [Bind.bind, Except.bind] at h
        cases headRule with
        | none =>
          obtain rfl : tl = rules := by simpa using h
          obtain ⟨q, hq, hrest⟩ := ih _ h2 ar hm
          exact ⟨q, List.mem_cons_of_mem _ hq, hrest⟩
        | some r =>
          obtain rfl : r :: tl = rules := by simpa using h
          rcases List.mem_cons.mp hm with hhead | htl
          · -- the head rule is our address rule: p must be an addr_rule pair
            unfold lowerTopPair at h1
            split at h1
            · -- service arm cannot yield an Address rule
              cases hs : parse_service_rule p with
              | error e =>
                rw [hs] at h1; exact absurd h1 (by simp [Bind.bind, Except.bind])
              | ok sr =>
                rw [hs] at h1
                simp only [Bind.bind, Except.bind, Except.ok.injEq,
                  Option.some.injEq] at h1
                rw [← h1] at hhead
                exact absurd hhead.symm (by simp)
            · rename_i htag
              cases haddr : parse_address_rule p with
              | error e =>
                rw [haddr] at h1; exact absurd h1 (by simp [Bind.bind, Except.bind])
              | ok a' =>
                rw [haddr] at h1
                simp only [Bind.bind, Except.bind, Except.ok.injEq,
                  Option.some.injEq] at h1
                rw [← h1] at hhead
                obtain rfl : a' = ar := by simpa using hhead.symm
                exact ⟨p, List.mem_cons_self _ _, htag, haddr⟩
            all_goals exact absurd h1 (by simp)
          · obtain ⟨q, hq, hrest⟩ := ih _ h2 ar htl
            exact ⟨q, List.mem_cons_of_mem _ hq, hrest⟩

/-- Every `AddressRule` that `parse_rules` can ever emit has at least
one of its from/to/port/proto fields set: the grammar requires a clause
and the assignments only ever strengthen the record. -/
theorem parse_rules_addr_has_clause {input : String} {rules : List FirewallRule}
    {ar : AddressRule} (h : parse_rules input = .ok rules)
    (hm : FirewallRule.Address ar ∈ rules) : hasClauseField ar := by
  unfold parse_rules at h
  cases hp : pFile input.toList with
  | none => rw [hp] at h; exact absurd h (by simp)
  | some filePair =>
    rw [hp] at h
    obtain ⟨p, hpm, htag, hlow⟩ := lowerFile_addr_source filePair.children rules h ar hm
    rcases pFile_sound hp p hpm with hEOI | hsvc | ⟨-, hgood⟩
    · rw [htag] at hEOI; exact absurd hEOI (by simp)
    · rw [htag] at hsvc; exact absurd hsvc (by simp)
    · exact parse_address_rule_hasClause hgood hlow

/-! ## Sequencing lemmas for the clause loop and the file loop -/

theorem lowerClauses_append :
    ∀ (xs ys : List Pair) (r0 : AddressRule),
      lowerClauses (xs ++ ys) r0 =
        match lowerClauses xs r0 with
        | .ok r1 => lowerClauses ys r1
        | .error e => .error e := by
  intro xs
  induction xs with
  | nil => intro ys r0; simp [lowerClauses]
  | cons p rest ih =>
    intro ys r0
    cases happ : applyClause r0 p with
    | ok next =>
      simp only [List.cons_append, lowerClauses, happ]
      exact ih ys next
    | error e => simp [lowerClauses, happ]

theorem lowerClauses_single {p : Pair} {r1 r : AddressRule}
    (h : lowerClauses [p] r1 = .ok r) : applyClause r1 p = .ok r := by
  unfold lowerClauses at h
  split at h
  · rename_i next heq
    obtain rfl : next = r := by simpa [lowerClauses] using h
    exact heq
  · exact absurd h (by simp)

theorem applyClause_direction {r1 r : AddressRule} {p : Pair} {d : Direction}
    (htag : p.tag = .direction) (hv : parse_direction p.text = .ok d)
    (h : applyClause r1 p = .ok r) : r.direction = some d := by
  unfold applyClause at h
  rw [htag] at h
  simp only [hv, Bind.bind, Except.bind, Except.ok.injEq] at h
  rw [← h]

theorem applyClause_interface {r1 r : AddressRule} {p i : Pair} {tl : List Pair}
    (htag : p.tag = .interface_clause) (hch : p.children = i :: tl)
    (h : applyClause r1 p = .ok r) : r.interface = some i.text := by
  unfold applyClause at h
  rw [htag, hch] at h
  simp only [Except.ok.injEq] at h
  rw [← h]

theorem applyClause_from {r1 r : AddressRule} {p a : Pair} {tl : List Pair}
    {addr : Address} (htag : p.tag = .from_clause) (hch : p.children = a :: tl)
    (hv : parse_address a = .ok addr) (h : applyClause r1 p = .ok r) :
    r.«from» = some addr := by
  unfold applyClause at h
  rw [htag, hch] at h
  simp only [hv, Bind.bind, Except.bind, Except.ok.injEq] at h
  rw [← h]

theorem applyClause_to {r1 r : AddressRule} {p a : Pair} {tl : List Pair}
    {addr : Address} (htag : p.tag = .to_clause) (hch : p.children = a :: tl)
    (hv : parse_address a = .ok addr) (h : applyClause r1 p = .ok r) :
    r.«to» = some addr := by
  unfold applyClause at h
  rw [htag, hch] at h
  simp only [hv, Bind.bind, Except.bind, Except.ok.injEq] at h
  rw [← h]

theorem applyClause_port {r1 r : AddressRule} {p n : Pair} {tl : List Pair}
    {v : Nat} (htag : p.tag = .port_clause) (hch : p.children = n :: tl)
    (hv : parse_port n.text = .ok v) (h : applyClause r1 p = .ok r) :
    r.port = some v := by
  unfold applyClause at h
  rw [htag, hch] at h
  simp only [hv, Bind.bind, Except.bind, Except.ok.injEq] at h
  rw [← h]

theorem applyClause_proto {r1 r : AddressRule} {p pr : Pair} {tl : List Pair}
    {v : Protocol} (htag : p.tag = .proto_clause) (hch : p.children = pr :: tl)
    (hv : parse_protocol pr.text = .ok v) (h : applyClause r1 p = .ok r) :
    r.proto = some v := by
  unfold applyClause at h
  rw [htag, hch] at h
  simp only [hv, Bind.bind, Except.bind, Except.ok.injEq] at h
  rw [← h]

theorem lowerFile_first_error :
    ∀ (xs : List Pair) (rsx : List FirewallRule) (p : Pair) (e : ParseError)
      (ys : List Pair), lowerFile xs = .ok rsx → lowerTopPair p = .error e →
      lowerFile (xs ++ p :: ys) = .error e := by
  intro xs
  induction xs with
  | nil =>
    intro rsx p e ys hx hp
    simp [lowerFile, hp, Bind.bind, Except.bind]
  | cons q rest ih =>
    intro rsx p e ys hx hp
    unfold lowerFile at hx
    cases h1 : lowerTopPair q with
    | error e' => rw [h1] at hx; exact absurd hx (by simp [Bind.bind, Except.bind])
    | ok r? =>
      rw [h1] at hx
      simp only [Bind.bind, Except.bind] at hx
      cases h2 : lowerFile rest with
      | error e' => rw [h2] at hx; exact absurd hx (by simp)
      | ok tl =>
        have hrec : lowerFile (rest ++ p :: ys) = .error e := ih tl p e ys h2 hp
        show lowerFile (q :: (rest ++ p :: ys)) = .error e
        unfold lowerFile
        rw [h1, hrec]
        simp [Bind.bind, Except.bind]

/-- The rule-producing pairs among the file pair's children. -/
def topRulePairs (ps : List Pair) : List Pair :=
  ps.filter (fun p => p.tag == .service_rule || p.tag == .addr_rule)

/-- Lowering of a single rule pair, as the `parse_rules` loop does it. -/
def ruleOfTopPair (p : Pair) : Except ParseError FirewallRule :=
  match p.tag with
  | .service_rule => do
    let s ← parse_service_rule p
    .ok (.Service s)
  | .addr_rule => do
    let a ← parse_address_rule p
    .ok (.Address a)
  | other => .error (.Message ("not a rule pair: " ++ other.name))

theorem lowerFile_mapM :
    ∀ (ps : List Pair) (rules : List FirewallRule), lowerFile ps = .ok rules →
      (topRulePairs ps).mapM ruleOfTopPair = .ok rules := by
  intro ps
  induction ps with
  | nil =>
    intro rules h
    obtain rfl : rules = [] := by simpa [lowerFile] using h.symm
    rfl
  | cons p rest ih =>
    intro rules h
    unfold lowerFile at h
    cases h1 : lowerTopPair p with
    | error e => rw [h1] at h; exact absurd h (by simp [Bind.bind, Except.bind])
    | ok r? =>
      rw [h1] at h
      simp only [Bind.bind, Except.bind] at h
      cases h2 : lowerFile rest with
      | error e => rw [h2] at h; exact absurd h (by simp)
      | ok tl =>
        rw [h2] at h
        have htl := ih tl h2
        unfold lowerTopPair at h1
        split at h1
        · -- service pair
          rename_i htag
          cases hs : parse_service_rule p with
          | error e => rw [hs] at h1; exact absurd h1 (by simp [Bind.bind, Except.bind])
          | ok sr =>
            rw [hs] at h1
            simp only [Bind.bind, Except.bind, Except.ok.injEq] at h1
            rw [← h1] at h
            obtain rfl : FirewallRule.Service sr :: tl = rules := by simpa using h
            have hkeep : topRulePairs (p :: rest) = p :: topRulePairs rest := by
              simp [topRulePairs, List.filter, htag]
            have hp : ruleOfTopPair p = .ok (.Service sr) := by
              unfold ruleOfTopPair
              rw [htag]
              simp [hs, Bind.bind, Except.bind]
            rw [hkeep, List.mapM_cons, hp, htl]
            rfl
        · -- address pair
          rename_i htag
          cases ha : parse_address_rule p with
          | error e => rw [ha] at h1; exact absurd h1 (by simp [Bind.bind, Except.bind])
          | ok ar =>
            rw [ha] at h1
            simp only [Bind.bind, Except.bind, Except.ok.injEq] at h1
            rw [← h1] at h
            obtain rfl : FirewallRule.Address ar :: tl = rules := by simpa using h
            have hkeep : topRulePairs (p :: rest) = p :: topRulePairs rest := by
              simp [topRulePairs, List.filter, htag]
            have hp : ruleOfTopPair p = .ok (.Address ar) := by
              unfold ruleOfTopPair
              rw [htag]
              simp [ha, Bind.bind, Except.bind]
            rw [hkeep, List.mapM_cons, hp, htl]
            rfl
        · -- skipped pairs contribute nothing
          rename_i htag
          obtain rfl : r? = none := by simpa using h1.symm
          obtain rfl : tl = rules := by simpa using h
          simpa [topRulePairs, List.filter, htag] using htl
        · rename_i htag
          obtain rfl : r? = none := by simpa using h1.symm
          obtain rfl : tl = rules := by simpa using h
          simpa [topRulePairs, List.filter, htag] using htl
        · rename_i htag
          obtain rfl : r? = none := by simpa using h1.symm
          obtain rfl : tl = rules := by simpa using h
          simpa [topRulePairs, List.filter, htag] using htl
        · rename_i htag
          obtain rfl : r? = none := by simpa using h1.symm
          obtain rfl : tl = rules := by simpa using h
          simpa [topRulePairs, List.filter, htag] using htl
        · exact absurd h1 (by simp)

/-! ## Port range lemmas -/

theorem parseDigits_lt {cs : List Char} {n : Nat} (h : parseDigits cs = some n) :
    n < 65536 := by
  unfold parseDigits at h
  split at h
  · exact absurd h (by simp)
  · split at h
    · rename_i hlt
      obtain rfl : natOfDigits cs = n := by simpa using h
      exact hlt
    · exact absurd h (by simp)

theorem parseU16_lt {text : String} {n : Nat} (h : parseU16 text = some n) :
    n < 65536 := by
  unfold parseU16 at h
  split at h
  · exact parseDigits_lt h
  · exact parseDigits_lt h

theorem parseDigits_overflow {cs : List Char} (hne : cs ≠ [])
    (hdig : cs.all Char.isDigit = true) (hbig : 65535 < natOfDigits cs) :
    parseDigits cs = none := by
  unfold parseDigits
  rw [if_neg, if_neg]
  · simpa using Nat.not_lt.mpr hbig
  · simp [hne, hdig]

theorem parse_port_overflow {text : String} (hne : text.toList ≠ [])
    (hdig : text.toList.all Char.isDigit = true)
    (hbig : 65535 < natOfDigits text.toList) :
    parse_port text = .error (.Message ("invalid port value: " ++ text)) := by
  unfold parse_port parseU16
  cases hl : text.toList with
  | nil => exact absurd hl hne
  | cons c cs =>
    rw [hl] at hdig hbig
    have hc : c.isDigit = true := by
      have := List.all_eq_true.mp hdig c (by simp)
      simpa using this
    split
    · rename_i v heq
      split at heq
      · rename_i rest2 hplus
        obtain rfl : c = '+' := (List.cons.injEq _ _ _ _ ▸ hplus).1
        exact absurd hc (by decide)
      · rw [parseDigits_overflow (by simp) hdig hbig] at heq
        exact absurd heq (by simp)
    · rfl

/-! ## Structured interchange format (JSON)

Model of the serde serialization derived in `src/src/lib.rs`:
`FirewallRule` is internally tagged (`#[serde(tag = "type",
rename_all = "lowercase")]`), `Address` is adjacently tagged
(`tag = "type", content = "value"`), the enums serialize to their
lowercase keyword spellings, and `Option` fields serialize to `null`
when absent. Values are modelled as JSON trees, not text. -/

inductive Json
  | null
  | str (s : String)
  | num (n : Nat)
  | arr (items : List Json)
  | obj (fields : List (String × Json))

/-- Field lookup in a JSON object (first match wins, as serde's map
deserializer does for well-formed output). -/
def getField (fields : List (String × Json)) (k : String) : Option Json :=
  match fields with
  | [] => none
  | (k', v) :: rest => if k = k' then some v else getField rest k

def Action.toJson : Action → Json
  | .Allow => .str "allow"
  | .Deny => .str "deny"
  | .Reject => .str "reject"
  | .Limit => .str "limit"

def Direction.toJson : Direction → Json
  | .In => .str "in"
  | .Out => .str "out"

def Protocol.toJson : Protocol → Json
  | .Tcp => .str "tcp"
  | .Udp => .str "udp"
  | .Any => .str "any"

def Address.toJson : Address → Json
  | .Any => .obj [("type", .str "any")]
  | .Internal => .obj [("type", .str "internal")]
  | .External => .obj [("type", .str "external")]
  | .IpCidr t => .obj [("type", .str "ipcidr"), ("value", .str t)]

/-- `None` serializes to `null`, `Some v` to `v`'s serialization. -/
def optJson (f : α → Json) : Option α → Json
  | none => .null
  | some a => f a

def FirewallRule.toJson : FirewallRule → Json
  | .Service sr =>
    .obj [("type", .str "service"), ("action", sr.action.toJson),
      ("service", .str sr.service)]
  | .Address ar =>
    .obj [("type", .str "address"), ("action", ar.action.toJson),
      ("direction", optJson Direction.toJson ar.direction),
      ("interface", optJson Json.str ar.interface),
      ("from", optJson Address.toJson ar.«from»),
      ("to", optJson Address.toJson ar.«to»),
      ("port", optJson Json.num ar.port),
      ("proto", optJson Protocol.toJson ar.proto)]

/-- Serialization of a whole rule sequence (`Vec<FirewallRule>`). -/
def rulesToJson (rules : List FirewallRule) : Json :=
  .arr (rules.map FirewallRule.toJson)

def Action.fromJson : Json → Option Action
  | .str s =>
    if s = "allow" then some .Allow
    else if s = "deny" then some .Deny
    else if s = "reject" then some .Reject
    else if s = "limit" then some .Limit
    else none
  | _ => none

def Direction.fromJson : Json → Option Direction
  | .str s =>
    if s = "in" then some .In
    else if s = "out" then some .Out
    else none
  | _ => none

def Protocol.fromJson : Json → Option Protocol
  | .str s =>
    if s = "tcp" then some .Tcp
    else if s = "udp" then some .Udp
    else if s = "any" then some .Any
    else none
  | _ => none

def strFromJson : Json → Option String
  | .str s => some s
  | _ => none

def numFromJson : Json → Option Nat
  | .num n => some n
  | _ => none

def Address.fromJson : Json → Option Address
  | .obj fields =>
    (match getField fields "type" with
     | some (.str t) =>
       if t = "any" then some .Any
       else if t = "internal" then some .Internal
       else if t = "external" then some .External
       else if t = "ipcidr" then
         match getField fields "value" with
         | some (.str v) => some (.IpCidr v)
         | _ => none
       else none
     | _ => none)
  | _ => none

/-- A missing or `null` optional field deserializes to `None`, anything
else through the value deserializer. -/
def optFromJson (f : Json → Option α) : Option Json → Option (Option α)
  | none => some none
  | some .null => some none
  | some j => (f j).map some

def addressRuleFromFields (fields : List (String × Json)) : Option AddressRule := do
  let aj ← getField fields "action"
  let action ← Action.fromJson aj
  let direction ← optFromJson Direction.fromJson (getField fields "direction")
  let interface ← optFromJson strFromJson (getField fields "interface")
  let fromA ← optFromJson Address.fromJson (getField fields "from")
  let toA ← optFromJson Address.fromJson (getField fields "to")
  let port ← optFromJson numFromJson (getField fields "port")
  let proto ← optFromJson Protocol.fromJson (getField fields "proto")
  some { action := action, direction := direction, interface := interface,
         «from» := fromA, «to» := toA, port := port, proto := proto }

def FirewallRule.fromJson : Json → Option FirewallRule
  | .obj fields =>
    (match getField fields "type" with
     | some (.str t) =>
       if t = "service" then
         (do
           let aj ← getField fields "action"
           let action ← Action.fromJson aj
           let sj ← getField fields "service"
           let sv ← strFromJson sj
           some (FirewallRule.Service { action := action, service := sv }))
       else if t = "address" then
         (addressRuleFromFields fields).map FirewallRule.Address
       else none
     | _ => none)
  | _ => none

/-- Deserialization of a whole rule sequence. -/
def rulesFromJson : Json → Option (List FirewallRule)
  | .arr items => items.mapM FirewallRule.fromJson
  | _ => none

theorem actionJson_roundtrip : ∀ a : Action, Action.fromJson a.toJson = some a := by
  intro a
  cases a <;> rfl

theorem directionJson_roundtrip :
    ∀ d : Direction, Direction.fromJson d.toJson = some d := by
  intro d
  cases d <;> rfl

theorem protocolJson_roundtrip :
    ∀ pr : Protocol, Protocol.fromJson pr.toJson = some pr := by
  intro pr
  cases pr <;> rfl

theorem addressJson_roundtrip :
    ∀ a : Address, Address.fromJson a.toJson = some a := by
  intro a
  cases a <;> rfl

theorem optFromJson_direction :
    ∀ o : Option Direction,
      optFromJson Direction.fromJson (some (optJson Direction.toJson o)) = some o := by
  intro o
  cases o with
  | none => rfl
  | some d => cases d <;> rfl

theorem optFromJson_str :
    ∀ o : Option String,
      optFromJson strFromJson (some (optJson Json.str o)) = some o := by
  intro o
  cases o <;> rfl

theorem optFromJson_address :
    ∀ o : Option Address,
      optFromJson Address.fromJson (some (optJson Address.toJson o)) = some o := by
  intro o
  cases o with
  | none => rfl
  | some a => cases a <;> rfl

theorem optFromJson_num :
    ∀ o : Option Nat,
      optFromJson numFromJson (some (optJson Json.num o)) = some o := by
  intro o
  cases o <;> rfl

theorem optFromJson_protocol :
    ∀ o : Option Protocol,
      optFromJson Protocol.fromJson (some (optJson Protocol.toJson o)) = some o := by
  intro o
  cases o with
  | none => rfl
  | some pr => cases pr <;> rfl

theorem ruleJson_roundtrip :
    ∀ r : FirewallRule, FirewallRule.fromJson r.toJson = some r := by
  intro r
  cases r with
  | Service sr =>
    obtain ⟨a, sv⟩ := sr
    cases a <;> rfl
  | Address ar =>
    obtain ⟨a, d, i, f, t, po, pr⟩ := ar
    show FirewallRule.fromJson (FirewallRule.toJson (.Address ⟨a, d, i, f, t, po, pr⟩)) =
      some (.Address ⟨a, d, i, f, t, po, pr⟩)
    simp [FirewallRule.toJson, FirewallRule.fromJson, getField,
      addressRuleFromFields, actionJson_roundtrip, optFromJson_direction,
      optFromJson_str, optFromJson_address, optFromJson_num, optFromJson_protocol]

theorem rulesFromJson_toJson :
    ∀ rules : List FirewallRule, rulesFromJson (rulesToJson rules) = some rules := by
  intro rules
  induction rules with
  | nil => rfl
  | cons r rest ih =>
    simp only [rulesToJson, List.map_cons, rulesFromJson, List.mapM_cons,
      ruleJson_roundtrip, Option.bind_eq_bind, Option.some_bind]
    have ih' : List.mapM FirewallRule.fromJson (rest.map FirewallRule.toJson) =
        some rest := by simpa [rulesToJson, rulesFromJson] using ih
    rw [ih']
    rfl

/-! ## Claims -/

/-- C1, counterexample to the claim as stated: the document
`"allow in\n"` — an address-rule shape `action direction` with no
from/to/port/proto clause — does NOT make `parse_rules` fail: the
`addr_rule` grammar rule indeed rejects it, but the `line` rule then
backtracks to `service_rule`, which happily reads the direction keyword
`in` as a service identifier, so the document parses as a Service rule. -/
theorem claim1_counterexample :
    parse_rules "allow in\n" =
      .ok [.Service { action := .Allow, service := "in" }] := rfl

/-- C1 (amended): a clause-less address-rule shaped line never produces
an Address rule with all optional clause fields `None`. When an
interface clause is present (`"allow in on eth0\n"`, `"allow on
eth0\n"`) the document is rejected with a syntax error; a bare
`action direction` line instead parses as a Service rule whose service
name is the direction keyword; and in general every Address rule
`parse_rules` ever emits has at least one of from/to/port/proto set,
because the grammar's clause group is `(...)+`. -/
theorem claim1_no_clauseless_address_rule :
    parse_rules "allow in on eth0\n" = .error .Pest ∧
    parse_rules "allow on eth0\n" = .error .Pest ∧
    parse_rules "allow in\n" =
      .ok [.Service { action := .Allow, service := "in" }] ∧
    (∀ (input : String) (rules : List FirewallRule) (ar : AddressRule),
      parse_rules input = .ok rules → FirewallRule.Address ar ∈ rules →
      hasClauseField ar) :=
  ⟨rfl, rfl, rfl, fun _ _ _ h hm => parse_rules_addr_has_clause h hm⟩

/-- C1 witness: the general conjunct applied to a concrete accepted
document whose single Address rule indeed has clause fields set. -/
theorem claim1_witness :
    hasClauseField
      { action := .Allow, direction := some .In, interface := none,
        «from» := some .Internal, «to» := some .External, port := some 443,
        proto := some .Tcp } :=
  claim1_no_clauseless_address_rule.2.2.2
    "allow in from internal to external port 443 proto tcp\n"
    [.Address
      { action := .Allow, direction := some .In, interface := none,
        «from» := some .Internal, «to» := some .External, port := some 443,
        proto := some .Tcp }]
    _ rfl (by simp)

/-- C2: `parse_rules "allow in from internal to external port 443 proto
tcp\n"` yields exactly one Address rule with action=Allow,
direction=Some In, interface=None, from=Some Internal, to=Some
External, port=Some 443, proto=Some Tcp. -/
theorem claim2_full_address_rule :
    parse_rules "allow in from internal to external port 443 proto tcp\n" =
      .ok [.Address
        { action := .Allow, direction := some .In, interface := none,
          «from» := some .Internal, «to» := some .External, port := some 443,
          proto := some .Tcp }] := rfl

/-- C3: a port clause whose digits denote a value above 65535 fails at
lowering time with the semantic "invalid port value" message, while a
non-digit port argument is already rejected by the grammar as a syntax
error; in general `parse_port` rejects every all-digit text whose value
exceeds 65535 and every value `parseU16` accepts fits in 16 bits. -/
theorem claim3_port_errors :
    parse_rules "allow port 70000\n" =
      .error (.Message "invalid port value: 70000") ∧
    parse_rules "allow port abc\n" = .error .Pest ∧
    (∀ text : String, text.toList ≠ [] → text.toList.all Char.isDigit = true →
      65535 < natOfDigits text.toList →
      parse_port text = .error (.Message ("invalid port value: " ++ text))) ∧
    (∀ (text : String) (n : Nat), parseU16 text = some n → n < 65536) :=
  ⟨rfl, rfl, fun _ h1 h2 h3 => parse_port_overflow h1 h2 h3,
    fun _ _ h => parseU16_lt h⟩

/-- C3 witness: the general conjuncts applied to the concrete texts
`"70000"` (rejected, above the range) and `"65535"` (accepted, in
range). -/
theorem claim3_witness :
    parse_port "70000" = .error (.Message "invalid port value: 70000") ∧
    (65535 : Nat) < 65536 :=
  ⟨claim3_port_errors.2.2.1 "70000" (by decide) (by decide) (by decide),
    claim3_port_errors.2.2.2 "65535" 65535 (by decide)⟩

/-- C4: duplicate clauses of one kind are accepted by the grammar and
lowering is last-wins: for each clause kind, appending a final clause
of that kind to any clause list forces the corresponding field to that
clause's value, whatever earlier clauses assigned; concretely, a line
with two port clauses and two from clauses keeps the rightmost of
each. -/
theorem claim4_duplicate_clause_last_wins :
    (∀ (cs : List Pair) (r0 r : AddressRule) (p : Pair) (d : Direction),
      p.tag = .direction → parse_direction p.text = .ok d →
      lowerClauses (cs ++ [p]) r0 = .ok r → r.direction = some d) ∧
    (∀ (cs : List Pair) (r0 r : AddressRule) (p i : Pair) (tl : List Pair),
      p.tag = .interface_clause → p.children = i :: tl →
      lowerClauses (cs ++ [p]) r0 = .ok r → r.interface = some i.text) ∧
    (∀ (cs : List Pair) (r0 r : AddressRule) (p a : Pair) (tl : List Pair)
      (addr : Address), p.tag = .from_clause → p.children = a :: tl →
      parse_address a = .ok addr →
      lowerClauses (cs ++ [p]) r0 = .ok r → r.«from» = some addr) ∧
    (∀ (cs : List Pair) (r0 r : AddressRule) (p a : Pair) (tl : List Pair)
      (addr : Address), p.tag = .to_clause → p.children = a :: tl →
      parse_address a = .ok addr →
      lowerClauses (cs ++ [p]) r0 = .ok r → r.«to» = some addr) ∧
    (∀ (cs : List Pair) (r0 r : AddressRule) (p n : Pair) (tl : List Pair)
      (v : Nat), p.tag = .port_clause → p.children = n :: tl →
      parse_port n.text = .ok v →
      lowerClauses (cs ++ [p]) r0 = .ok r → r.port = some v) ∧
    (∀ (cs : List Pair) (r0 r : AddressRule) (p pr : Pair) (tl : List Pair)
      (v : Protocol), p.tag = .proto_clause → p.children = pr :: tl →
      parse_protocol pr.text = .ok v →
      lowerClauses (cs ++ [p]) r0 = .ok r → r.proto = some v) ∧
    parse_rules "allow port 80 port 443 from any from internal\n" =
      .ok [.Address
        { action := .Allow, direction := none, interface := none,
          «from» := some .Internal, «to» := none, port := some 443,
          proto := none }] := by
  refine ⟨?_, ?_, ?_, ?_, ?_, ?_, rfl⟩
  · intro cs r0 r p d htag hv h
    rw [lowerClauses_append] at h
    cases hcs : lowerClauses cs r0 with
    | error e => rw [hcs] at h; exact absurd h (by simp)
    | ok r1 => rw [hcs] at h; exact applyClause_direction htag hv (lowerClauses_single h)
  · intro cs r0 r p i tl htag hch h
    rw [lowerClauses_append] at h
    cases hcs : lowerClauses cs r0 with
    | error e => rw [hcs] at h; exact absurd h (by simp)
    | ok r1 => rw [hcs] at h; exact applyClause_interface htag hch (lowerClauses_single h)
  · intro cs r0 r p a tl addr htag hch hv h
    rw [lowerClauses_append] at h
    cases hcs : lowerClauses cs r0 with
    | error e => rw [hcs] at h; exact absurd h (by simp)
    | ok r1 => rw [hcs] at h; exact applyClause_from htag hch hv (lowerClauses_single h)
  · intro cs r0 r p a tl addr htag hch hv h
    rw [lowerClauses_append] at h
    cases hcs : lowerClauses cs r0 with
    | error e => rw [hcs] at h; exact absurd h (by simp)
    | ok r1 => rw [hcs] at h; exact applyClause_to htag hch hv (lowerClauses_single h)
  · intro cs r0 r p n tl v htag hch hv h
    rw [lowerClauses_append] at h
    cases hcs : lowerClauses cs r0 with
    | error e => rw [hcs] at h; exact absurd h (by simp)
    | ok r1 => rw [hcs] at h; exact applyClause_port htag hch hv (lowerClauses_single h)
  · intro cs r0 r p pr tl v htag hch hv h
    rw [lowerClauses_append] at h
    cases hcs : lowerClauses cs r0 with
    | error e => rw [hcs] at h; exact absurd h (by simp)
    | ok r1 => rw [hcs] at h; exact applyClause_proto htag hch hv (lowerClauses_single h)

/-- C4 witness: the port conjunct applied to a concrete clause list
with two port clauses (80 then 443): the result's port is 443. -/
theorem claim4_witness :
    lowerClauses
      ([{ tag := .port_clause, text := "port 80",
          children := [{ tag := .port_number, text := "80", children := [] }] }] ++
        [{ tag := .port_clause, text := "port 443",
           children := [{ tag := .port_number, text := "443", children := [] }] }])
      { action := .Allow, direction := none, interface := none, «from» := none,
        «to» := none, port := none, proto := none } =
      .ok
        { action := .Allow, direction := none, interface := none, «from» := none,
          «to» := none, port := some 443, proto := none } ∧
    ({ action := .Allow, direction := none, interface := none, «from» := none,
       «to» := none, port := some 443, proto := none } : AddressRule).port =
      some 443 :=
  ⟨rfl,
    claim4_duplicate_clause_last_wins.2.2.2.2.1
      [{ tag := .port_clause, text := "port 80",
         children := [{ tag := .port_number, text := "80", children := [] }] }]
      { action := .Allow, direction := none, interface := none, «from» := none,
        «to» := none, port := none, proto := none }
      { action := .Allow, direction := none, interface := none, «from» := none,
        «to» := none, port := some 443, proto := none }
      { tag := .port_clause, text := "port 443",
        children := [{ tag := .port_number, text := "443", children := [] }] }
      { tag := .port_number, text := "443", children := [] } [] 443
      rfl rfl rfl rfl⟩

/-- C5, counterexample to the claim as stated: the document `"# hi"`
has a final line with comment content and no terminating newline, yet
`parse_rules` accepts it (with zero rules): the comment is consumed by
pest's implicit `COMMENT` skipping before the `EOI` check. -/
theorem claim5_counterexample : parse_rules "# hi" = .ok [] := rfl

/-- C5 (amended): a final newline-less segment consisting of
whitespace and comments only (in particular an empty one) is accepted,
and a final newline-less segment with rule content is rejected: on any
newline-free document, `parse_rules` succeeds (with zero rules) exactly
when implicit skipping exhausts it, and fails with a syntax error
otherwise; documents whose last line is a rule without a newline are
rejected even when earlier lines are well-formed. -/
theorem claim5_final_line :
    (∀ input : String, '\n' ∉ input.toList →
      ((skip input.toList).isEmpty = true → parse_rules input = .ok []) ∧
      ((skip input.toList).isEmpty = false → parse_rules input = .error .Pest)) ∧
    parse_rules "allow ssh" = .error .Pest ∧
    parse_rules "" = .ok [] ∧
    parse_rules "allow ssh\n" = .ok [.Service { action := .Allow, service := "ssh" }] ∧
    parse_rules "allow ssh\n# trailing comment" =
      .ok [.Service { action := .Allow, service := "ssh" }] ∧
    parse_rules "allow ssh\nallow dns" = .error .Pest :=
  ⟨fun input h => parse_rules_no_newline input h, rfl, rfl, rfl, rfl, rfl⟩

/-- C5 witness: the general conjunct applied to the newline-free
documents `"  # c"` (accepted empty) and `"allow ssh"` (rejected). -/
theorem claim5_witness :
    parse_rules "  # c" = .ok [] ∧ parse_rules "allow ssh" = .error .Pest :=
  ⟨(claim5_final_line.1 "  # c" (by decide)).1 rfl,
    (claim5_final_line.1 "allow ssh" (by decide)).2 rfl⟩

/-- C6: lowering emits exactly one rule per rule pair, in order: for
every accepted children list, the produced sequence equals the in-order
lowering of exactly the `service_rule`/`addr_rule` pairs, every other
pair contributing nothing; concretely, a document mixing blank lines,
comment-only lines and trailing comments yields only its three genuine
rule lines, in document order. -/
theorem claim6_order :
    (∀ (ps : List Pair) (rules : List FirewallRule), lowerFile ps = .ok rules →
      (topRulePairs ps).mapM ruleOfTopPair = .ok rules) ∧
    parse_rules
        "\n# c1\nallow ssh # c2\n\ndeny out to 8.8.8.8 port 53 proto udp\nallow in from internal to external port 443 proto tcp\n" =
      .ok [.Service { action := .Allow, service := "ssh" },
        .Address
          { action := .Deny, direction := some .Out, interface := none,
            «from» := none, «to» := some (.IpCidr "8.8.8.8"), port := some 53,
            proto := some .Udp },
        .Address
          { action := .Allow, direction := some .In, interface := none,
            «from» := some .Internal, «to» := some .External, port := some 443,
            proto := some .Tcp }] :=
  ⟨lowerFile_mapM, rfl⟩

/-- C6 witness: the general conjunct applied to a concrete children
list (one service pair, one EOI pair): the EOI pair contributes
nothing and the service pair lowers to the single rule. -/
theorem claim6_witness :
    (topRulePairs
        [{ tag := .service_rule, text := "allow ssh",
           children := [{ tag := .action, text := "allow", children := [] },
             { tag := .ident, text := "ssh", children := [] }] },
         { tag := .EOI, text := "", children := [] }]).mapM ruleOfTopPair =
      .ok [.Service { action := .Allow, service := "ssh" }] :=
  claim6_order.1
    [{ tag := .service_rule, text := "allow ssh",
       children := [{ tag := .action, text := "allow", children := [] },
         { tag := .ident, text := "ssh", children := [] }] },
     { tag := .EOI, text := "", children := [] }]
    [.Service { action := .Allow, service := "ssh" }] rfl

/-- C7: the first failure aborts the whole document: if an initial
segment of the file's children lowers successfully and the next pair
fails, the whole lowering returns exactly that pair's error and no
rules, whatever follows; concretely, a document with two out-of-range
ports reports the first, and a document whose second line is
ungrammatical is a syntax error with no partial result. -/
theorem claim7_first_error :
    (∀ (xs : List Pair) (rsx : List FirewallRule) (p : Pair) (e : ParseError)
      (ys : List Pair), lowerFile xs = .ok rsx → lowerTopPair p = .error e →
      lowerFile (xs ++ p :: ys) = .error e) ∧
    parse_rules "allow port 70000\nallow port 99999\n" =
      .error (.Message "invalid port value: 70000") ∧
    parse_rules "allow ssh\nfoo bar\n" = .error .Pest :=
  ⟨lowerFile_first_error, rfl, rfl⟩

/-- C7 witness: the general conjunct applied to a concrete failing
address pair placed after an empty prefix and before a service pair:
the service pair after the failure is never reached. -/
theorem claim7_witness :
    lowerFile
      ([] ++
        { tag := RuleTag.addr_rule, text := "allow port 70000",
          children := [{ tag := .action, text := "allow", children := [] },
            { tag := .port_clause, text := "port 70000",
              children := [{ tag := .port_number, text := "70000", children := [] }] }] } ::
          [{ tag := .service_rule, text := "allow ssh",
             children := [{ tag := .action, text := "allow", children := [] },
               { tag := .ident, text := "ssh", children := [] }] }]) =
      .error (.Message "invalid port value: 70000") :=
  claim7_first_error.1 [] []
    { tag := RuleTag.addr_rule, text := "allow port 70000",
      children := [{ tag := .action, text := "allow", children := [] },
        { tag := .port_clause, text := "port 70000",
          children := [{ tag := .port_number, text := "70000", children := [] }] }] }
    (.Message "invalid port value: 70000")
    [{ tag := .service_rule, text := "allow ssh",
       children := [{ tag := .action, text := "allow", children := [] },
         { tag := .ident, text := "ssh", children := [] }] }]
    rfl rfl

/-- C8: the address lowering maps the matched text "any"/"internal"/
"external" to the corresponding keyword variants and wraps any other
matched text literally as `IpCidr`, with no numeric validation;
concretely a `to 8.8.8.8` clause lowers to `IpCidr "8.8.8.8"`. -/
theorem claim8_address_mapping :
    (∀ p : Pair,
      (p.text = "any" → parse_address p = .ok .Any) ∧
      (p.text = "internal" → parse_address p = .ok .Internal) ∧
      (p.text = "external" → parse_address p = .ok .External) ∧
      (p.text ≠ "any" → p.text ≠ "internal" → p.text ≠ "external" →
        parse_address p = .ok (.IpCidr p.text))) ∧
    parse_rules "deny out to 8.8.8.8 port 53 proto udp\n" =
      .ok [.Address
        { action := .Deny, direction := some .Out, interface := none,
          «from» := none, «to» := some (.IpCidr "8.8.8.8"), port := some 53,
          proto := some .Udp }] := by
  constructor
  · intro p
    refine ⟨fun h => ?_, fun h => ?_, fun h => ?_, fun h1 h2 h3 => ?_⟩
    · simp [parse_address, h]
    · simp [parse_address, h]
    · simp [parse_address, h]
    · simp [parse_address, h1, h2, h3]
  · rfl

/-- C8 witness: the general conjunct applied to a concrete CIDR-text
addr pair. -/
theorem claim8_witness :
    parse_address { tag := .addr, text := "10.0.0.0/24", children := [] } =
      .ok (.IpCidr "10.0.0.0/24") :=
  (claim8_address_mapping.1
      { tag := .addr, text := "10.0.0.0/24", children := [] }).2.2.2
    (by decide) (by decide) (by decide)

/-- C9: JSON round-trip: serializing any rule sequence to the
structured interchange format (type-tagged objects, lowercase enum
spellings, `null` for absent optional fields) and deserializing it
yields the identical sequence, without any involvement of the grammar
engine. -/
theorem claim9_json_roundtrip :
    ∀ rules : List FirewallRule, rulesFromJson (rulesToJson rules) = some rules :=
  rulesFromJson_toJson

/-- C10: `parse_rules` is a total function into the `Except` sum: on
every input it evaluates to either a rule sequence or a `ParseError`;
in this embedding every expected-but-missing child pair and every
unanticipated pair tag is an explicit error branch
(`parse_service_rule`, `applyClause`, `lowerTopPair`), so no execution
path is left undefined. -/
theorem claim10_total :
    ∀ input : String, (∃ rules, parse_rules input = .ok rules) ∨
      (∃ e, parse_rules input = .error e) := by
  intro input
  cases parse_rules input with
  | ok rules => exact .inl ⟨rules, rfl⟩
  | error e => exact .inr ⟨e, rfl⟩

end Firewall
